import Mathlib

/-!
# Verification of the force-directed graph layout engine

Shallow embedding of `src/src-tauri/src/commands/force_graph.rs` (the
`compute_force_layout` pipeline) together with the data model from
`src/src-tauri/src/models.rs`.

Modelling conventions:
* Rust `f64` values are modelled as exact rationals (`ℚ`).  The layout code
  performs only field arithmetic, `min`/`max`, and calls to `f64::cos`,
  `f64::sin` and the constant `PI`; the trigonometric primitives are kept
  abstract as a `TrigModel` parameter since their exact floating-point values
  never decide any of the structural properties proved here.
* The force simulation itself lives in the external `fjadra` crate, not in
  this repository's sources; it is modelled abstractly as a `SimOracle`
  (see its doc comment).
* Fields of the domain records that the layout code never reads (timestamps,
  addresses, GPS coordinates, ...) are omitted.
-/

namespace ForceGraph

/-- Bike availability status (`models.rs`, `enum BikeStatus`). -/
inductive BikeStatus where
  | Available | InUse | Maintenance | Charging | Offline
deriving DecidableEq, Repr

/-- Delivery status (`models.rs`, `enum DeliveryStatus`). -/
inductive DeliveryStatus where
  | Completed | Ongoing | Upcoming
deriving DecidableEq, Repr

/-- Who reported an issue (`models.rs`, `enum IssueReporterType`). -/
inductive IssueReporterType where
  | Customer | Deliverer | Restaurant
deriving DecidableEq, Repr

/-- Issue category (`models.rs`, `enum IssueCategory`). -/
inductive IssueCategory where
  | Late | Damaged | WrongOrder | Rude | BikeProblem | Other
deriving DecidableEq, Repr

/-- `IssueCategory::as_str` (`models.rs`). -/
def IssueCategory.as_str : IssueCategory → String
  | .Late => "late"
  | .Damaged => "damaged"
  | .WrongOrder => "wrong_order"
  | .Rude => "rude"
  | .BikeProblem => "bike_problem"
  | .Other => "other"

/-- A bike (`models.rs`, `struct Bike`); only the fields read by the layout
code are modelled. -/
structure Bike where
  id : String
  name : String
  status : BikeStatus
deriving DecidableEq, Repr

/-- A delivery (`models.rs`, `struct Delivery`); only the fields read by the
layout code are modelled. -/
structure Delivery where
  id : String
  bike_id : String
  status : DeliveryStatus
  customer_name : String
  rating : Option ℕ
deriving DecidableEq, Repr

/-- An issue (`models.rs`, `struct Issue`); only the fields read by the
layout code are modelled.  `delivery_id = none` marks a standalone issue. -/
structure Issue where
  id : String
  delivery_id : Option String
  bike_id : String
  reporter_type : IssueReporterType
  category : IssueCategory
  resolved : Bool
deriving DecidableEq, Repr

/-- Node types of the force graph (`models.rs`, `enum ForceNodeType`). -/
inductive ForceNodeType where
  | Deliverer | Delivery | Issue
deriving DecidableEq, Repr

/-- Type-specific node payload (`models.rs`, `enum ForceNodeData`). -/
inductive ForceNodeData where
  | Deliverer (name : String) (status : BikeStatus)
  | Delivery (status : DeliveryStatus) (customer : String) (rating : Option ℕ)
  | Issue (category : IssueCategory) (resolved : Bool) (reporter : IssueReporterType)
deriving DecidableEq, Repr

/-- A node of the returned force graph (`models.rs`, `struct ForceNode`). -/
structure ForceNode where
  id : String
  node_type : ForceNodeType
  label : String
  x : ℚ
  y : ℚ
  radius : ℚ
  data : ForceNodeData
deriving DecidableEq, Repr

/-- A link of the returned force graph (`models.rs`, `struct ForceLink`). -/
structure ForceLink where
  source : String
  target : String
  strength : ℚ
deriving DecidableEq, Repr

/-- The returned layout (`models.rs`, `struct ForceGraphData`).  `bounds` is
`(min_x, max_x, min_y, max_y)`. -/
structure ForceGraphData where
  nodes : List ForceNode
  links : List ForceLink
  center_x : ℚ
  center_y : ℚ
  bounds : ℚ × ℚ × ℚ × ℚ
deriving DecidableEq, Repr

/-- The error type of the command layer (`database.rs`); only the variants
mentioned by `force_graph.rs` are modelled.  `compute_force_layout` itself
never produces an error. -/
inductive DatabaseError where
  | NotInitialized
  | InvalidData (msg : String)
deriving DecidableEq, Repr

-- ============================================================================
-- Constants (`force_graph.rs`, lines 49-66)
-- ============================================================================

def DELIVERER_RADIUS : ℚ := 40
def DELIVERY_RADIUS : ℚ := 25
def ISSUE_RADIUS : ℚ := 18
def DELIVERY_DISTANCE : ℚ := 120
def ISSUE_DISTANCE : ℚ := 60
def CENTER_STRENGTH : ℚ := 1/20
def REPULSION_STRENGTH : ℚ := -300
def LINK_STRENGTH : ℚ := 7/10

/-- Abstract model of the `f64` trigonometric primitives (`f64::cos`,
`f64::sin`, `std::f64::consts::PI`) used for initial radial placement.  Every
structural property proved below holds for an arbitrary model. -/
structure TrigModel where
  cosq : ℚ → ℚ
  sinq : ℚ → ℚ
  piq : ℚ

/-- Intermediate node data (`force_graph.rs`, `struct NodeInfo`). -/
structure NodeInfo where
  id : String
  node_type : ForceNodeType
  label : String
  radius : ℚ
  data : ForceNodeData
  initial_x : ℚ
  initial_y : ℚ
deriving DecidableEq, Repr

-- ============================================================================
-- Graph building (`compute_force_layout` steps 1-3, lines 208-347)
-- ============================================================================

/-- Step 1 (lines 216-228): the deliverer node placed at the origin. -/
def delivererInfo (bike : Bike) : NodeInfo :=
  { id := bike.id
    node_type := .Deliverer
    label := bike.name
    radius := DELIVERER_RADIUS
    data := .Deliverer bike.name bike.status
    initial_x := 0
    initial_y := 0 }

/-- The delivery ring angle (lines 233-237). -/
def deliveryAngle (T : TrigModel) (count i : ℕ) : ℚ :=
  if 0 < count then ((i : ℚ) / (count : ℚ)) * 2 * T.piq else 0

/-- The `NodeInfo` pushed for the `i`-th of `count` deliveries
(lines 241-254). -/
def deliveryInfo (T : TrigModel) (count i : ℕ) (d : Delivery) : NodeInfo :=
  { id := d.id
    node_type := .Delivery
    label := d.customer_name
    radius := DELIVERY_RADIUS
    data := .Delivery d.status d.customer_name d.rating
    initial_x := DELIVERY_DISTANCE * T.cosq (deliveryAngle T count i)
    initial_y := DELIVERY_DISTANCE * T.sinq (deliveryAngle T count i) }

/-- Step 2 (lines 230-264): delivery nodes on a ring of radius
`DELIVERY_DISTANCE`, one `Center → Delivery` link each.  `count` is the total
delivery count, `i` the running loop index, `infos` the node list built so
far; returns the extended node list, this phase's links and this phase's
link index pairs (in push order). -/
def addDeliveries (T : TrigModel) (bike : Bike) (count : ℕ) :
    ℕ → List Delivery → List NodeInfo →
    List NodeInfo × List ForceLink × List (ℕ × ℕ)
  | _, [], infos => (infos, [], [])
  | i, d :: rest, infos =>
    let delivery_index := infos.length
    let next := addDeliveries T bike count (i + 1) rest (infos ++ [deliveryInfo T count i d])
    (next.1,
     { source := bike.id, target := d.id, strength := LINK_STRENGTH } :: next.2.1,
     (0, delivery_index) :: next.2.2)

/-- `node_infos.iter().enumerate().find(|(_, n)| &n.id == delivery_id)`
(lines 275-280): index, initial x and initial y of the first node carrying
the given id. -/
def findNodeInfo : List NodeInfo → String → ℕ → Option (ℕ × ℚ × ℚ)
  | [], _, _ => none
  | n :: rest, did, idx =>
    if n.id = did then some (idx, n.initial_x, n.initial_y)
    else findNodeInfo rest did (idx + 1)

/-- `issues.iter().position(|i| i.id == issue.id).unwrap_or(0)` (line 284). -/
def issuePosition (issues : List Issue) (iid : String) : ℕ :=
  (issues.findIdx? (fun j => j.id == iid)).getD 0

/-- The angular offset of a linked issue (lines 283-284): `0.8` radians per
position of the issue in the full issue list. -/
def issueAngleOffset (allIssues : List Issue) (iid : String) : ℚ :=
  (issuePosition allIssues iid : ℚ) * (8/10)

/-- The `NodeInfo` pushed for a linked issue (lines 288-301), given the
`(index, x, y)` of its resolved (or fallen-back) delivery anchor. -/
def linkedIssueInfo (T : TrigModel) (allIssues : List Issue) (issue : Issue)
    (found : ℕ × ℚ × ℚ) : NodeInfo :=
  { id := issue.id
    node_type := .Issue
    label := issue.category.as_str
    radius := ISSUE_RADIUS
    data := .Issue issue.category issue.resolved issue.reporter_type
    initial_x := found.2.1 + ISSUE_DISTANCE * T.cosq (issueAngleOffset allIssues issue.id)
    initial_y := found.2.2 + ISSUE_DISTANCE * T.sinq (issueAngleOffset allIssues issue.id) }

/-- Step 3a (lines 270-311): issue nodes linked to a delivery, placed at an
angular offset from their delivery's initial position; falls back to
`(1, DELIVERY_DISTANCE, 0.0)` when the referenced delivery id is absent.
One `delivery → issue` link each.  The `none` branch is dead code: the
caller only passes issues whose `delivery_id` is `some` (the Rust code
filters first and then unwraps). -/
def addLinkedIssues (T : TrigModel) (allIssues : List Issue) :
    List Issue → List NodeInfo →
    List NodeInfo × List ForceLink × List (ℕ × ℕ)
  | [], infos => (infos, [], [])
  | issue :: rest, infos =>
    match issue.delivery_id with
    | none => addLinkedIssues T allIssues rest infos
    | some delivery_id =>
      let found := (findNodeInfo infos delivery_id 0).getD (1, DELIVERY_DISTANCE, 0)
      let issue_index := infos.length
      let next := addLinkedIssues T allIssues rest
        (infos ++ [linkedIssueInfo T allIssues issue found])
      (next.1,
       { source := delivery_id, target := issue.id,
         strength := LINK_STRENGTH * (8/10) } :: next.2.1,
       (found.1, issue_index) :: next.2.2)

/-- The outer-ring angle of the `i`-th of `count` standalone issues
(lines 316-320). -/
def standaloneAngle (T : TrigModel) (count i : ℕ) : ℚ :=
  if 0 < count then ((i : ℚ) / (count : ℚ)) * 2 * T.piq + T.piq / 4 else 0

/-- The `NodeInfo` pushed for the `i`-th of `count` standalone issues
(lines 324-337). -/
def standaloneIssueInfo (T : TrigModel) (count i : ℕ) (issue : Issue) : NodeInfo :=
  { id := issue.id
    node_type := .Issue
    label := issue.category.as_str
    radius := ISSUE_RADIUS
    data := .Issue issue.category issue.resolved issue.reporter_type
    initial_x := (DELIVERY_DISTANCE + ISSUE_DISTANCE) * T.cosq (standaloneAngle T count i)
    initial_y := (DELIVERY_DISTANCE + ISSUE_DISTANCE) * T.sinq (standaloneAngle T count i) }

/-- Step 3b (lines 313-347): standalone issues on an outer ring, one
`deliverer → issue` link each. -/
def addStandaloneIssues (T : TrigModel) (bike : Bike) (count : ℕ) :
    ℕ → List Issue → List NodeInfo →
    List NodeInfo × List ForceLink × List (ℕ × ℕ)
  | _, [], infos => (infos, [], [])
  | i, issue :: rest, infos =>
    let issue_index := infos.length
    let next := addStandaloneIssues T bike count (i + 1) rest
      (infos ++ [standaloneIssueInfo T count i issue])
    (next.1,
     { source := bike.id, target := issue.id,
       strength := LINK_STRENGTH * (1/2) } :: next.2.1,
     (0, issue_index) :: next.2.2)

/-- Steps 1-3 of `compute_force_layout` (lines 208-347): the node list, the
link list and the link index pairs, in the exact push order of the source
(center, deliveries, linked issues, standalone issues). -/
def buildGraph (T : TrigModel) (bike : Bike) (deliveries : List Delivery)
    (issues : List Issue) :
    List NodeInfo × List ForceLink × List (ℕ × ℕ) :=
  let infos0 := [delivererInfo bike]
  let stepD := addDeliveries T bike deliveries.length 0 deliveries infos0
  let linked := issues.filter (fun i => i.delivery_id.isSome)
  let standalone := issues.filter (fun i => i.delivery_id.isNone)
  let stepL := addLinkedIssues T issues linked stepD.1
  let stepS := addStandaloneIssues T bike standalone.length 0 standalone stepL.1
  (stepS.1,
   stepD.2.1 ++ stepL.2.1 ++ stepS.2.1,
   stepD.2.2 ++ stepL.2.2 ++ stepS.2.2)

-- ============================================================================
-- Particles and the simulation configuration (step 4-5, lines 349-398)
-- ============================================================================

/-- A Fjädra `Node` as configured here: either started at a position and
free, or pinned (`fixed_position`). -/
structure Particle where
  x : ℚ
  y : ℚ
  fixed : Bool
deriving DecidableEq, Repr

/-- `node_infos.iter().position(|n| n.id == id)` (lines 351-353). -/
def positionOfId : List NodeInfo → String → Option ℕ
  | [], _ => none
  | n :: rest, nid =>
    if n.id = nid then some 0 else (positionOfId rest nid).map (· + 1)

/-- The free-node branch of the particle constructor (lines 365-369): the
deliverer (index 0) is pinned at the origin unless it is itself the dragged
node; every other node starts free at its initial position. -/
def particleFree (fni : Option ℕ) (idx : ℕ) (info : NodeInfo) : Particle :=
  if idx = 0 ∧ fni ≠ some 0 then { x := 0, y := 0, fixed := true }
  else { x := info.initial_x, y := info.initial_y, fixed := false }

/-- One particle (lines 358-369): a node whose id equals the dragged id is
pinned at the caller-supplied coordinate; otherwise `particleFree`. -/
def particleFor (fixed_node : Option (String × ℚ × ℚ)) (fni : Option ℕ)
    (idx : ℕ) (info : NodeInfo) : Particle :=
  match fixed_node with
  | some (fid, fx, fy) =>
    if info.id = fid then { x := fx, y := fy, fixed := true }
    else particleFree fni idx info
  | none => particleFree fni idx info

/-- `node_infos.iter().enumerate().map(...)` (lines 355-371). -/
def mkParticles (fixed_node : Option (String × ℚ × ℚ)) (fni : Option ℕ) :
    ℕ → List NodeInfo → List Particle
  | _, [] => []
  | idx, info :: rest =>
    particleFor fixed_node fni idx info :: mkParticles fixed_node fni (idx + 1) rest

/-- The link force as configured by the builder chain
`Link::new(link_indices).iterations(3)` (lines 393-398): index pairs, pass
count, and optional overrides for per-link strength and distance —
`none` means the library default is used (the source comment: "Use Link
with defaults"). -/
structure LinkForce where
  links : List (ℕ × ℕ)
  iterations : ℕ
  strength : Option (ℕ → ℚ)
  distance : Option (ℕ → ℚ)

/-- Everything `compute_force_layout` passes into the Fjädra simulation
(lines 379-398): the particle list and the four configured forces. -/
structure SimConfig where
  particles : List Particle
  center_strength : ℚ
  charge_strength : ℚ
  collide_radii : List ℚ
  collide_iterations : ℕ
  link : LinkForce

/-- Modelled from the spec: the Fjädra force simulation itself lives in the
external `fjadra` crate, not in this repository's sources.  Its interface is
taken from the spec's simulation contract — `simulate` returns one final
position per particle in the same order ("same node set/order"), and
fixed-node enforcement: "any node marked `fixed` ... has its position
forcibly reset to its pinned coordinate".  Any deterministic simulation
satisfying these two properties is admissible. -/
structure SimOracle where
  run : SimConfig → List (ℚ × ℚ)
  run_length : ∀ cfg : SimConfig, (run cfg).length = cfg.particles.length
  run_fixed : ∀ (cfg : SimConfig) (i : ℕ) (p : Particle),
    cfg.particles.get? i = some p → p.fixed = true →
    (run cfg).get? i = some (p.x, p.y)

-- ============================================================================
-- Extraction and bounds (step 6, lines 404-461)
-- ============================================================================

/-- Lines 407-422: build the output nodes from the node metadata and the
simulation positions; a missing position falls back to the initial
position (`unwrap_or([info.initial_x, info.initial_y])`). -/
def extractNodes (positions : List (ℚ × ℚ)) :
    ℕ → List NodeInfo → List ForceNode
  | _, [] => []
  | idx, info :: rest =>
    let p := (positions.get? idx).getD (info.initial_x, info.initial_y)
    { id := info.id
      node_type := info.node_type
      label := info.label
      x := p.1
      y := p.2
      radius := info.radius
      data := info.data } :: extractNodes positions (idx + 1) rest

/-- `f64::MAX` as an exact rational. -/
def f64MAX : ℚ := 2^1024 - 2^971

/-- `f64::MIN` (the most negative finite `f64`) as an exact rational. -/
def f64MIN : ℚ := -(2^1024 - 2^971)

/-- One iteration of the bounds loop (lines 446-451). -/
def boundsStep (acc : ℚ × ℚ × ℚ × ℚ) (n : ForceNode) : ℚ × ℚ × ℚ × ℚ :=
  (min acc.1 (n.x - n.radius), max acc.2.1 (n.x + n.radius),
   min acc.2.2.1 (n.y - n.radius), max acc.2.2.2 (n.y + n.radius))

/-- `compute_bounds` (lines 436-461): `(0,0,0,0)` for an empty node list,
otherwise min/max of position ± radius over all nodes (accumulated from the
`f64::MAX`/`f64::MIN` sentinels) expanded by a padding of 20 on every edge. -/
def compute_bounds (nodes : List ForceNode) : ℚ × ℚ × ℚ × ℚ :=
  match nodes with
  | [] => (0, 0, 0, 0)
  | _ :: _ =>
    let m := nodes.foldl boundsStep (f64MAX, f64MIN, f64MAX, f64MIN)
    (m.1 - 20, m.2.1 + 20, m.2.2.1 - 20, m.2.2.2 + 20)

-- ============================================================================
-- The full pipeline (`compute_force_layout`, lines 202-433)
-- ============================================================================

def nodeInfosOf (T : TrigModel) (bike : Bike) (deliveries : List Delivery)
    (issues : List Issue) : List NodeInfo :=
  (buildGraph T bike deliveries issues).1

def linksOf (T : TrigModel) (bike : Bike) (deliveries : List Delivery)
    (issues : List Issue) : List ForceLink :=
  (buildGraph T bike deliveries issues).2.1

def linkIndicesOf (T : TrigModel) (bike : Bike) (deliveries : List Delivery)
    (issues : List Issue) : List (ℕ × ℕ) :=
  (buildGraph T bike deliveries issues).2.2

/-- `fixed_node_index` (lines 351-353). -/
def fniOf (T : TrigModel) (bike : Bike) (deliveries : List Delivery)
    (issues : List Issue) (fixed_node : Option (String × ℚ × ℚ)) : Option ℕ :=
  fixed_node.bind fun f => positionOfId (nodeInfosOf T bike deliveries issues) f.1

/-- `particles` (lines 355-371). -/
def particlesOf (T : TrigModel) (bike : Bike) (deliveries : List Delivery)
    (issues : List Issue) (fixed_node : Option (String × ℚ × ℚ)) : List Particle :=
  mkParticles fixed_node (fniOf T bike deliveries issues fixed_node) 0
    (nodeInfosOf T bike deliveries issues)

/-- The simulation configuration assembled by the builder chain
(lines 379-398).  The Rust `radii` vector always mirrors
`node_infos[i].radius` (both are pushed together), so the collide radius
closure `|i| radii_clone[i] + 5.0` is the map below. -/
def simConfigOf (T : TrigModel) (bike : Bike) (deliveries : List Delivery)
    (issues : List Issue) (fixed_node : Option (String × ℚ × ℚ)) : SimConfig :=
  { particles := particlesOf T bike deliveries issues fixed_node
    center_strength := CENTER_STRENGTH
    charge_strength := REPULSION_STRENGTH
    collide_radii := (nodeInfosOf T bike deliveries issues).map (fun n => n.radius + 5)
    collide_iterations := 2
    link := { links := linkIndicesOf T bike deliveries issues
              iterations := 3
              strength := none
              distance := none } }

/-- `simulation.positions().collect()` (line 405). -/
def positionsOf (S : SimOracle) (T : TrigModel) (bike : Bike)
    (deliveries : List Delivery) (issues : List Issue)
    (fixed_node : Option (String × ℚ × ℚ)) : List (ℚ × ℚ) :=
  S.run (simConfigOf T bike deliveries issues fixed_node)

def nodesOf (S : SimOracle) (T : TrigModel) (bike : Bike)
    (deliveries : List Delivery) (issues : List Issue)
    (fixed_node : Option (String × ℚ × ℚ)) : List ForceNode :=
  extractNodes (positionsOf S T bike deliveries issues fixed_node) 0
    (nodeInfosOf T bike deliveries issues)

/-- The `ForceGraphData` value assembled at lines 424-432. -/
def layoutOf (S : SimOracle) (T : TrigModel) (bike : Bike)
    (deliveries : List Delivery) (issues : List Issue)
    (fixed_node : Option (String × ℚ × ℚ)) : ForceGraphData :=
  { nodes := nodesOf S T bike deliveries issues fixed_node
    links := linksOf T bike deliveries issues
    center_x := 0
    center_y := 0
    bounds := compute_bounds (nodesOf S T bike deliveries issues fixed_node) }

/-- `compute_force_layout` (lines 202-433): builds the graph, runs the
simulation, extracts positions and bounds, and unconditionally returns
`Ok(...)`. -/
def compute_force_layout (S : SimOracle) (T : TrigModel) (bike : Bike)
    (deliveries : List Delivery) (issues : List Issue)
    (fixed_node : Option (String × ℚ × ℚ)) :
    Except DatabaseError ForceGraphData :=
  Except.ok (layoutOf S T bike deliveries issues fixed_node)

-- ============================================================================
-- Concrete instances used to evaluate the development on closed inputs
-- ============================================================================

/-- A trigonometric model used for closed evaluations; the structural
properties proved below hold for every model. -/
def T0 : TrigModel := { cosq := fun _ => 1, sinq := fun _ => 0, piq := 0 }

/-- A simulation satisfying the `SimOracle` interface: every particle stays
at its starting (respectively pinned) coordinate.  Used to evaluate the
pipeline on closed inputs. -/
def idOracle : SimOracle where
  run cfg := cfg.particles.map (fun p => (p.x, p.y))
  run_length cfg := by simp
  run_fixed cfg i p h hf := by
    simp only [List.getElem?_map, ← List.get?_eq_getElem?, h]
    cases p
    simp_all

def bike1 : Bike := { id := "b1", name := "Bike One", status := .Available }

def d1 : Delivery :=
  { id := "d1", bike_id := "b1", status := .Completed,
    customer_name := "Alice", rating := some 5 }

/-- An issue whose `delivery_id` references no node ("dangling"). -/
def i1 : Issue :=
  { id := "i1", delivery_id := some "ghost", bike_id := "b1",
    reporter_type := .Customer, category := .Late, resolved := false }

/-- A well-linked issue owned by `d1`. -/
def i2 : Issue :=
  { id := "i2", delivery_id := some "d1", bike_id := "b1",
    reporter_type := .Deliverer, category := .Damaged, resolved := true }

/-- A standalone issue. -/
def i3 : Issue :=
  { id := "i3", delivery_id := none, bike_id := "b1",
    reporter_type := .Restaurant, category := .Other, resolved := false }

-- ============================================================================
-- Helper lemmas: indexing the generated lists
-- ============================================================================

theorem mkParticles_get? (fx : Option (String × ℚ × ℚ)) (fni : Option ℕ) :
    ∀ (infos : List NodeInfo) (k i : ℕ),
      (mkParticles fx fni k infos).get? i =
        (infos.get? i).map (fun info => particleFor fx fni (k + i) info) := by
  intro infos
  induction infos with
  | nil => intro k i; simp [mkParticles]
  | cons info rest ih =>
    intro k i
    cases i with
    | zero => simp [mkParticles]
    | succ j =>
      simp only [mkParticles, List.get?]
      rw [ih (k + 1) j]
      have : k + 1 + j = k + (j + 1) := by omega
      rw [this]

theorem mkParticles_length (fx : Option (String × ℚ × ℚ)) (fni : Option ℕ) :
    ∀ (infos : List NodeInfo) (k : ℕ),
      (mkParticles fx fni k infos).length = infos.length := by
  intro infos
  induction infos with
  | nil => intro k; simp [mkParticles]
  | cons info rest ih => intro k; simp [mkParticles, ih]

theorem extractNodes_get? (positions : List (ℚ × ℚ)) :
    ∀ (infos : List NodeInfo) (k i : ℕ),
      (extractNodes positions k infos).get? i =
        (infos.get? i).map (fun info =>
          let p := (positions.get? (k + i)).getD (info.initial_x, info.initial_y)
          { id := info.id, node_type := info.node_type, label := info.label,
            x := p.1, y := p.2, radius := info.radius, data := info.data }) := by
  intro infos
  induction infos with
  | nil => intro k i; simp [extractNodes]
  | cons info rest ih =>
    intro k i
    cases i with
    | zero => simp [extractNodes]
    | succ j =>
      simp only [extractNodes, List.get?]
      rw [ih (k + 1) j]
      have : k + 1 + j = k + (j + 1) := by omega
      rw [this]

theorem extractNodes_map_id (positions : List (ℚ × ℚ)) :
    ∀ (infos : List NodeInfo) (k : ℕ),
      (extractNodes positions k infos).map (fun n => n.id) =
        infos.map (fun n => n.id) := by
  intro infos
  induction infos with
  | nil => intro k; simp [extractNodes]
  | cons info rest ih => intro k; simp [extractNodes, ih]

theorem extractNodes_length (positions : List (ℚ × ℚ)) :
    ∀ (infos : List NodeInfo) (k : ℕ),
      (extractNodes positions k infos).length = infos.length := by
  intro infos
  induction infos with
  | nil => intro k; simp [extractNodes]
  | cons info rest ih => intro k; simp [extractNodes, ih]

theorem positionOfId_eq_none :
    ∀ (infos : List NodeInfo) (nid : String),
      (∀ n ∈ infos, n.id ≠ nid) → positionOfId infos nid = none := by
  intro infos
  induction infos with
  | nil => intro nid _; rfl
  | cons n rest ih =>
    intro nid h
    simp only [positionOfId]
    rw [if_neg (h n (by simp)), ih nid (fun m hm => h m (by simp [hm]))]
    rfl

theorem findNodeInfo_eq_none :
    ∀ (infos : List NodeInfo) (did : String) (k : ℕ),
      (∀ n ∈ infos, n.id ≠ did) → findNodeInfo infos did k = none := by
  intro infos
  induction infos with
  | nil => intro did k _; rfl
  | cons n rest ih =>
    intro did k h
    simp only [findNodeInfo]
    rw [if_neg (h n (by simp)), ih did (k + 1) (fun m hm => h m (by simp [hm]))]

-- ============================================================================
-- Helper lemmas: shape of the build phases
-- ============================================================================

theorem addDeliveries_infos (T : TrigModel) (bike : Bike) (count : ℕ) :
    ∀ (i : ℕ) (ds : List Delivery) (infos : List NodeInfo),
      ∃ tail, (addDeliveries T bike count i ds infos).1 = infos ++ tail ∧
        tail.map (fun n => n.id) = ds.map (fun d => d.id) := by
  intro i ds
  induction ds generalizing i with
  | nil => intro infos; exact ⟨[], by simp [addDeliveries]⟩
  | cons d rest ih =>
    intro infos
    simp only [addDeliveries]
    obtain ⟨tail, h1, h2⟩ := ih (i + 1) (infos ++ [deliveryInfo T count i d])
    exact ⟨deliveryInfo T count i d :: tail, by simp [h1], by simp [h2, deliveryInfo]⟩

theorem addDeliveries_links (T : TrigModel) (bike : Bike) (count : ℕ) :
    ∀ (i : ℕ) (ds : List Delivery) (infos : List NodeInfo),
      (addDeliveries T bike count i ds infos).2.1 =
        ds.map (fun d =>
          { source := bike.id, target := d.id, strength := LINK_STRENGTH }) := by
  intro i ds
  induction ds generalizing i with
  | nil => intro infos; rfl
  | cons d rest ih =>
    intro infos
    simp only [addDeliveries, List.map]
    rw [ih (i + 1)]

theorem addLinkedIssues_infos (T : TrigModel) (allIssues : List Issue) :
    ∀ (l : List Issue) (infos : List NodeInfo),
      (∀ x ∈ l, x.delivery_id.isSome = true) →
      ∃ tail, (addLinkedIssues T allIssues l infos).1 = infos ++ tail ∧
        tail.map (fun n => n.id) = l.map (fun x => x.id) := by
  intro l
  induction l with
  | nil => intro infos _; exact ⟨[], by simp [addLinkedIssues]⟩
  | cons issue rest ih =>
    intro infos h
    have hsome := h issue (by simp)
    obtain ⟨did, hdid⟩ := Option.isSome_iff_exists.mp hsome
    simp only [addLinkedIssues, hdid]
    obtain ⟨tail, h1, h2⟩ :=
      ih (infos ++ [linkedIssueInfo T allIssues issue
            ((findNodeInfo infos did 0).getD (1, DELIVERY_DISTANCE, 0))])
        (fun x hx => h x (by simp [hx]))
    exact ⟨linkedIssueInfo T allIssues issue
        ((findNodeInfo infos did 0).getD (1, DELIVERY_DISTANCE, 0)) :: tail,
      by simp [h1], by simp [h2, linkedIssueInfo]⟩

theorem addLinkedIssues_links (T : TrigModel) (allIssues : List Issue) :
    ∀ (l : List Issue) (infos : List NodeInfo),
      (∀ x ∈ l, x.delivery_id.isSome = true) →
      (addLinkedIssues T allIssues l infos).2.1 =
        l.map (fun iss =>
          { source := iss.delivery_id.getD "", target := iss.id,
            strength := LINK_STRENGTH * (8/10) }) := by
  intro l
  induction l with
  | nil => intro infos _; rfl
  | cons issue rest ih =>
    intro infos h
    obtain ⟨did, hdid⟩ := Option.isSome_iff_exists.mp (h issue (by simp))
    simp only [addLinkedIssues, hdid, List.map]
    rw [ih _ (fun x hx => h x (by simp [hx]))]
    simp [hdid]

theorem addStandaloneIssues_infos (T : TrigModel) (bike : Bike) (count : ℕ) :
    ∀ (i : ℕ) (ss : List Issue) (infos : List NodeInfo),
      ∃ tail, (addStandaloneIssues T bike count i ss infos).1 = infos ++ tail ∧
        tail.map (fun n => n.id) = ss.map (fun x => x.id) := by
  intro i ss
  induction ss generalizing i with
  | nil => intro infos; exact ⟨[], by simp [addStandaloneIssues]⟩
  | cons s rest ih =>
    intro infos
    simp only [addStandaloneIssues]
    obtain ⟨tail, h1, h2⟩ := ih (i + 1) (infos ++ [standaloneIssueInfo T count i s])
    exact ⟨standaloneIssueInfo T count i s :: tail, by simp [h1],
      by simp [h2, standaloneIssueInfo]⟩

theorem addStandaloneIssues_links (T : TrigModel) (bike : Bike) (count : ℕ) :
    ∀ (i : ℕ) (ss : List Issue) (infos : List NodeInfo),
      (addStandaloneIssues T bike count i ss infos).2.1 =
        ss.map (fun iss =>
          { source := bike.id, target := iss.id,
            strength := LINK_STRENGTH * (1/2) }) := by
  intro i ss
  induction ss generalizing i with
  | nil => intro infos; rfl
  | cons s rest ih =>
    intro infos
    simp only [addStandaloneIssues, List.map]
    rw [ih (i + 1)]

theorem filter_some_none_length (issues : List Issue) :
    (issues.filter (fun x => x.delivery_id.isSome)).length +
      (issues.filter (fun x => x.delivery_id.isNone)).length = issues.length := by
  induction issues with
  | nil => rfl
  | cons x rest ih =>
    cases h : x.delivery_id <;> simp [List.filter, h] <;> omega

-- ============================================================================
-- Helper lemmas: the built graph
-- ============================================================================

theorem nodeInfosOf_eq (T : TrigModel) (bike : Bike)
    (deliveries : List Delivery) (issues : List Issue) :
    nodeInfosOf T bike deliveries issues =
      (addStandaloneIssues T bike
        (issues.filter (fun x => x.delivery_id.isNone)).length 0
        (issues.filter (fun x => x.delivery_id.isNone))
        (addLinkedIssues T issues (issues.filter (fun x => x.delivery_id.isSome))
          (addDeliveries T bike deliveries.length 0 deliveries
            [delivererInfo bike]).1).1).1 := rfl

theorem nodeInfosOf_map_id (T : TrigModel) (bike : Bike)
    (deliveries : List Delivery) (issues : List Issue) :
    (nodeInfosOf T bike deliveries issues).map (fun n => n.id) =
      bike.id :: (deliveries.map (fun d => d.id) ++
        ((issues.filter (fun x => x.delivery_id.isSome)).map (fun x => x.id) ++
         (issues.filter (fun x => x.delivery_id.isNone)).map (fun x => x.id))) := by
  obtain ⟨tD, hD1, hD2⟩ :=
    addDeliveries_infos T bike deliveries.length 0 deliveries [delivererInfo bike]
  obtain ⟨tL, hL1, hL2⟩ :=
    addLinkedIssues_infos T issues (issues.filter (fun x => x.delivery_id.isSome))
      (addDeliveries T bike deliveries.length 0 deliveries [delivererInfo bike]).1
      (fun x hx => (List.mem_filter.mp hx).2)
  obtain ⟨tS, hS1, hS2⟩ :=
    addStandaloneIssues_infos T bike
      (issues.filter (fun x => x.delivery_id.isNone)).length 0
      (issues.filter (fun x => x.delivery_id.isNone))
      (addLinkedIssues T issues (issues.filter (fun x => x.delivery_id.isSome))
        (addDeliveries T bike deliveries.length 0 deliveries [delivererInfo bike]).1).1
  rw [nodeInfosOf_eq, hS1, hL1, hD1]
  simp [hD2, hL2, hS2, delivererInfo]

theorem nodeInfosOf_length (T : TrigModel) (bike : Bike)
    (deliveries : List Delivery) (issues : List Issue) :
    (nodeInfosOf T bike deliveries issues).length =
      1 + deliveries.length + issues.length := by
  have h := congrArg List.length (nodeInfosOf_map_id T bike deliveries issues)
  simp only [List.length_map, List.length_cons, List.length_append] at h
  rw [h]
  have := filter_some_none_length issues
  omega

theorem linksOf_eq (T : TrigModel) (bike : Bike)
    (deliveries : List Delivery) (issues : List Issue) :
    linksOf T bike deliveries issues =
      deliveries.map (fun d =>
        { source := bike.id, target := d.id, strength := LINK_STRENGTH }) ++
      ((issues.filter (fun x => x.delivery_id.isSome)).map (fun iss =>
        { source := iss.delivery_id.getD "", target := iss.id,
          strength := LINK_STRENGTH * (8/10) }) ++
       (issues.filter (fun x => x.delivery_id.isNone)).map (fun iss =>
        { source := bike.id, target := iss.id,
          strength := LINK_STRENGTH * (1/2) })) := by
  unfold linksOf buildGraph
  simp only
  rw [addDeliveries_links,
    addLinkedIssues_links T issues _ _ (fun x hx => (List.mem_filter.mp hx).2),
    addStandaloneIssues_links]
  simp

theorem nodeInfosOf_get?_zero (T : TrigModel) (bike : Bike)
    (deliveries : List Delivery) (issues : List Issue) :
    (nodeInfosOf T bike deliveries issues).get? 0 = some (delivererInfo bike) := by
  obtain ⟨tD, hD1, _⟩ :=
    addDeliveries_infos T bike deliveries.length 0 deliveries [delivererInfo bike]
  obtain ⟨tL, hL1, _⟩ :=
    addLinkedIssues_infos T issues (issues.filter (fun x => x.delivery_id.isSome))
      (addDeliveries T bike deliveries.length 0 deliveries [delivererInfo bike]).1
      (fun x hx => (List.mem_filter.mp hx).2)
  obtain ⟨tS, hS1, _⟩ :=
    addStandaloneIssues_infos T bike
      (issues.filter (fun x => x.delivery_id.isNone)).length 0
      (issues.filter (fun x => x.delivery_id.isNone))
      (addLinkedIssues T issues (issues.filter (fun x => x.delivery_id.isSome))
        (addDeliveries T bike deliveries.length 0 deliveries [delivererInfo bike]).1).1
  rw [nodeInfosOf_eq, hS1, hL1, hD1]
  simp

-- ============================================================================
-- C1: determinism
-- ============================================================================

/-- C1.  Determinism: for a fixed input (one bike, a fixed-order delivery
list, a fixed-order issue list) and no pin override, two runs of the layout
computation return identical layouts — the same coordinates for every node,
the same links and the same bounds.  The pipeline is a pure function of its
inputs: it performs no I/O and consults no randomness, and the simulation is
a deterministic function of its configuration. -/
theorem layout_determinism (S : SimOracle) (T : TrigModel) (bike : Bike)
    (deliveries : List Delivery) (issues : List Issue)
    (g₁ g₂ : ForceGraphData)
    (h₁ : compute_force_layout S T bike deliveries issues none = Except.ok g₁)
    (h₂ : compute_force_layout S T bike deliveries issues none = Except.ok g₂) :
    g₁ = g₂ := by
  rw [h₁] at h₂
  exact (Except.ok.injEq _ _ ▸ h₂ : g₁ = g₂)

/-- Closed witness for `layout_determinism` at a concrete input. -/
theorem layout_determinism_witness :
    compute_force_layout idOracle T0 bike1 [d1] [i1, i2, i3] none =
      Except.ok (layoutOf idOracle T0 bike1 [d1] [i1, i2, i3] none) ∧
    layoutOf idOracle T0 bike1 [d1] [i1, i2, i3] none =
      layoutOf idOracle T0 bike1 [d1] [i1, i2, i3] none :=
  ⟨rfl, layout_determinism idOracle T0 bike1 [d1] [i1, i2, i3] _ _ rfl rfl⟩

-- ============================================================================
-- C4: link cardinality
-- ============================================================================

/-- C4.  Link cardinality: for every input, the returned layout's link list
has length exactly `deliveries.length + issues.length` — one Center→Primary
link per delivery and one owner→Secondary link per issue. -/
theorem link_cardinality (S : SimOracle) (T : TrigModel) (bike : Bike)
    (deliveries : List Delivery) (issues : List Issue)
    (fixed_node : Option (String × ℚ × ℚ)) :
    (layoutOf S T bike deliveries issues fixed_node).links.length =
      deliveries.length + issues.length := by
  show (linksOf T bike deliveries issues).length = _
  rw [linksOf_eq]
  simp only [List.length_append, List.length_map]
  have := filter_some_none_length issues
  omega

-- ============================================================================
-- C10: node cardinality and output order
-- ============================================================================

/-- C10.  Node cardinality and order: for every input, the returned node
list has exactly `1 + deliveries.length + issues.length` entries and its ids
are, in order: the deliverer, the deliveries in input order, the issues with
a `delivery_id` in input order, then the issues without one in input order
(so issues are reordered whenever a standalone issue precedes a linked
one). -/
theorem node_cardinality_and_order (S : SimOracle) (T : TrigModel)
    (bike : Bike) (deliveries : List Delivery) (issues : List Issue)
    (fixed_node : Option (String × ℚ × ℚ)) :
    (layoutOf S T bike deliveries issues fixed_node).nodes.map (fun n => n.id) =
      bike.id :: (deliveries.map (fun d => d.id) ++
        ((issues.filter (fun x => x.delivery_id.isSome)).map (fun x => x.id) ++
         (issues.filter (fun x => x.delivery_id.isNone)).map (fun x => x.id))) ∧
    (layoutOf S T bike deliveries issues fixed_node).nodes.length =
      1 + deliveries.length + issues.length := by
  constructor
  · show (nodesOf S T bike deliveries issues fixed_node).map (fun n => n.id) = _
    unfold nodesOf
    rw [extractNodes_map_id, nodeInfosOf_map_id]
  · show (nodesOf S T bike deliveries issues fixed_node).length = _
    unfold nodesOf
    rw [extractNodes_length, nodeInfosOf_length]

-- ============================================================================
-- C2: fixed-node enforcement
-- ============================================================================

theorem particlesOf_get? (T : TrigModel) (bike : Bike)
    (deliveries : List Delivery) (issues : List Issue)
    (fixed_node : Option (String × ℚ × ℚ)) (j : ℕ) :
    (particlesOf T bike deliveries issues fixed_node).get? j =
      ((nodeInfosOf T bike deliveries issues).get? j).map
        (fun info => particleFor fixed_node
          (fniOf T bike deliveries issues fixed_node) j info) := by
  unfold particlesOf
  rw [mkParticles_get?]
  simp

theorem nodesOf_get? (S : SimOracle) (T : TrigModel) (bike : Bike)
    (deliveries : List Delivery) (issues : List Issue)
    (fixed_node : Option (String × ℚ × ℚ)) (j : ℕ) :
    (nodesOf S T bike deliveries issues fixed_node).get? j =
      ((nodeInfosOf T bike deliveries issues).get? j).map (fun info =>
        let p := ((positionsOf S T bike deliveries issues fixed_node).get? j).getD
          (info.initial_x, info.initial_y)
        { id := info.id, node_type := info.node_type, label := info.label,
          x := p.1, y := p.2, radius := info.radius, data := info.data }) := by
  unfold nodesOf
  rw [extractNodes_get?]
  simp

/-- If the particle at index `j` is pinned at `(x, y)`, the output node at
index `j` carries exactly that position. -/
theorem nodesOf_pinned (S : SimOracle) (T : TrigModel) (bike : Bike)
    (deliveries : List Delivery) (issues : List Issue)
    (fixed_node : Option (String × ℚ × ℚ)) (j : ℕ) (info : NodeInfo) (x y : ℚ)
    (hj : (nodeInfosOf T bike deliveries issues).get? j = some info)
    (hp : (particlesOf T bike deliveries issues fixed_node).get? j =
      some { x := x, y := y, fixed := true }) :
    (nodesOf S T bike deliveries issues fixed_node).get? j =
      some { id := info.id, node_type := info.node_type, label := info.label,
             x := x, y := y, radius := info.radius, data := info.data } := by
  have hpos : (positionsOf S T bike deliveries issues fixed_node).get? j =
      some (x, y) :=
    S.run_fixed (simConfigOf T bike deliveries issues fixed_node) j
      { x := x, y := y, fixed := true } hp rfl
  rw [nodesOf_get?, hj]
  rw [List.get?_eq_getElem?] at hpos
  simp [hpos]

/-- C2.  Fixed-node enforcement: (a) with no pin override the Center node at
index 0 ends exactly at the origin; (a') likewise when the override names no
node of the graph; (b) with an override `(nid, x, y)`, every graph node
whose id is `nid` ends exactly at `(x, y)`; (c) when the override names the
Center itself (`nid = bike.id`), the origin pin is dropped and the Center
ends exactly at `(x, y)`. -/
theorem fixed_node_enforcement (S : SimOracle) (T : TrigModel) (bike : Bike)
    (deliveries : List Delivery) (issues : List Issue) :
    (∃ n, (layoutOf S T bike deliveries issues none).nodes.get? 0 = some n ∧
       n.id = bike.id ∧ n.x = 0 ∧ n.y = 0) ∧
    (∀ (nid : String) (x y : ℚ),
       (∀ info ∈ nodeInfosOf T bike deliveries issues, info.id ≠ nid) →
       ∃ n, (layoutOf S T bike deliveries issues (some (nid, x, y))).nodes.get? 0 =
          some n ∧ n.id = bike.id ∧ n.x = 0 ∧ n.y = 0) ∧
    (∀ (nid : String) (x y : ℚ) (j : ℕ) (info : NodeInfo),
       (nodeInfosOf T bike deliveries issues).get? j = some info →
       info.id = nid →
       ∃ n, (layoutOf S T bike deliveries issues (some (nid, x, y))).nodes.get? j =
          some n ∧ n.id = nid ∧ n.x = x ∧ n.y = y) ∧
    (∀ (x y : ℚ),
       ∃ n, (layoutOf S T bike deliveries issues (some (bike.id, x, y))).nodes.get? 0 =
          some n ∧ n.id = bike.id ∧ n.x = x ∧ n.y = y) := by
  have hmain : ∀ (nid : String) (x y : ℚ) (j : ℕ) (info : NodeInfo),
      (nodeInfosOf T bike deliveries issues).get? j = some info →
      info.id = nid →
      ∃ n, (layoutOf S T bike deliveries issues (some (nid, x, y))).nodes.get? j =
        some n ∧ n.id = nid ∧ n.x = x ∧ n.y = y := by
    intro nid x y j info hj hid
    have hp : (particlesOf T bike deliveries issues (some (nid, x, y))).get? j =
        some { x := x, y := y, fixed := true } := by
      rw [particlesOf_get?, hj]
      simp [particleFor, hid]
    have := nodesOf_pinned S T bike deliveries issues (some (nid, x, y)) j info x y hj hp
    exact ⟨_, this, by simpa using hid, rfl, rfl⟩
  refine ⟨?_, ?_, hmain, ?_⟩
  · have hj := nodeInfosOf_get?_zero T bike deliveries issues
    have hp : (particlesOf T bike deliveries issues none).get? 0 =
        some { x := 0, y := 0, fixed := true } := by
      rw [particlesOf_get?, hj]
      have hfni : fniOf T bike deliveries issues none = none := rfl
      simp [particleFor, particleFree, hfni]
    have := nodesOf_pinned S T bike deliveries issues none 0 (delivererInfo bike) 0 0 hj hp
    exact ⟨_, this, rfl, rfl, rfl⟩
  · intro nid x y hno
    have hj := nodeInfosOf_get?_zero T bike deliveries issues
    have hcid : (delivererInfo bike).id ≠ nid :=
      hno (delivererInfo bike) (List.get?_mem hj)
    have hfni : fniOf T bike deliveries issues (some (nid, x, y)) = none := by
      show positionOfId (nodeInfosOf T bike deliveries issues) nid = none
      exact positionOfId_eq_none _ _ hno
    have hp : (particlesOf T bike deliveries issues (some (nid, x, y))).get? 0 =
        some { x := 0, y := 0, fixed := true } := by
      rw [particlesOf_get?, hj]
      simp [particleFor, particleFree, hfni, hcid]
    have := nodesOf_pinned S T bike deliveries issues (some (nid, x, y)) 0
      (delivererInfo bike) 0 0 hj hp
    exact ⟨_, this, rfl, rfl, rfl⟩
  · intro x y
    exact hmain bike.id x y 0 (delivererInfo bike)
      (nodeInfosOf_get?_zero T bike deliveries issues) rfl

/-- Closed witness for `fixed_node_enforcement`: the three parts evaluated
on a concrete graph (for part (b), at the delivery node, index 1). -/
theorem fixed_node_enforcement_witness :
    (∃ n, (layoutOf idOracle T0 bike1 [d1] [i2, i3] none).nodes.get? 0 = some n ∧
       n.id = bike1.id ∧ n.x = 0 ∧ n.y = 0) ∧
    (∃ n, (layoutOf idOracle T0 bike1 [d1] [i2, i3]
        (some ("zz", 4, 4))).nodes.get? 0 = some n ∧
       n.id = bike1.id ∧ n.x = 0 ∧ n.y = 0) ∧
    (∃ n, (layoutOf idOracle T0 bike1 [d1] [i2, i3]
        (some ("d1", 5, -7))).nodes.get? 1 = some n ∧
       n.id = "d1" ∧ n.x = 5 ∧ n.y = -7) ∧
    (∃ n, (layoutOf idOracle T0 bike1 [d1] [i2, i3]
        (some (bike1.id, 50, -30))).nodes.get? 0 = some n ∧
       n.id = bike1.id ∧ n.x = 50 ∧ n.y = -30) :=
  ⟨(fixed_node_enforcement idOracle T0 bike1 [d1] [i2, i3]).1,
   (fixed_node_enforcement idOracle T0 bike1 [d1] [i2, i3]).2.1 "zz" 4 4 (by decide),
   (fixed_node_enforcement idOracle T0 bike1 [d1] [i2, i3]).2.2.1 "d1" 5 (-7) 1
     (deliveryInfo T0 1 0 d1) (by rfl) (by rfl),
   (fixed_node_enforcement idOracle T0 bike1 [d1] [i2, i3]).2.2.2 50 (-30)⟩

/-- A concrete output node used to witness the bounds theorem. -/
def node0 : ForceNode :=
  { id := "b1", node_type := .Deliverer, label := "Bike One",
    x := 0, y := 0, radius := 40, data := .Deliverer "Bike One" .Available }

-- ============================================================================
-- C7: unknown pin target is a no-op
-- ============================================================================

theorem mkParticles_unknown (nid : String) (x y : ℚ) :
    ∀ (infos : List NodeInfo) (k : ℕ),
      (∀ info ∈ infos, info.id ≠ nid) →
      mkParticles (some (nid, x, y)) none k infos =
        mkParticles none none k infos := by
  intro infos
  induction infos with
  | nil => intro k _; rfl
  | cons info rest ih =>
    intro k h
    simp only [mkParticles]
    rw [ih (k + 1) (fun m hm => h m (by simp [hm]))]
    have : particleFor (some (nid, x, y)) none k info = particleFor none none k info := by
      simp [particleFor, h info (by simp)]
    rw [this]

/-- C7.  Unknown pin target: if the override's node id matches no node of
the built graph, the returned layout is identical to the layout computed
with no override — the pin is silently ignored and no error is surfaced. -/
theorem unknown_pin_noop (S : SimOracle) (T : TrigModel) (bike : Bike)
    (deliveries : List Delivery) (issues : List Issue) (nid : String) (x y : ℚ)
    (h : ∀ info ∈ nodeInfosOf T bike deliveries issues, info.id ≠ nid) :
    compute_force_layout S T bike deliveries issues (some (nid, x, y)) =
      compute_force_layout S T bike deliveries issues none := by
  have hfni : fniOf T bike deliveries issues (some (nid, x, y)) = none := by
    show positionOfId (nodeInfosOf T bike deliveries issues) nid = none
    exact positionOfId_eq_none _ _ h
  have hpart : particlesOf T bike deliveries issues (some (nid, x, y)) =
      particlesOf T bike deliveries issues none := by
    unfold particlesOf
    rw [hfni]
    exact mkParticles_unknown nid x y _ 0 h
  have hcfg : simConfigOf T bike deliveries issues (some (nid, x, y)) =
      simConfigOf T bike deliveries issues none := by
    unfold simConfigOf
    rw [hpart]
  unfold compute_force_layout layoutOf nodesOf positionsOf
  rw [hcfg]

/-- Closed witness for `unknown_pin_noop`: pinning the id "zz", which no
node of the concrete graph carries, returns the undragged layout. -/
theorem unknown_pin_noop_witness :
    compute_force_layout idOracle T0 bike1 [d1] [i1, i2, i3] (some ("zz", 9, 9)) =
      compute_force_layout idOracle T0 bike1 [d1] [i1, i2, i3] none :=
  unknown_pin_noop idOracle T0 bike1 [d1] [i1, i2, i3] "zz" 9 9 (by decide)

-- ============================================================================
-- C6: bounds
-- ============================================================================

theorem foldl_min_le_init : ∀ (l : List ℚ) (a : ℚ), l.foldl min a ≤ a := by
  intro l
  induction l with
  | nil => intro a; simp
  | cons x xs ih =>
    intro a
    calc (x :: xs).foldl min a = xs.foldl min (min a x) := rfl
    _ ≤ min a x := ih (min a x)
    _ ≤ a := min_le_left _ _

theorem foldl_min_le_mem :
    ∀ (l : List ℚ) (a x : ℚ), x ∈ l → l.foldl min a ≤ x := by
  intro l
  induction l with
  | nil => intro a x hx; simp at hx
  | cons z zs ih =>
    intro a x hx
    rcases List.mem_cons.mp hx with h | h
    · subst h
      calc (x :: zs).foldl min a = zs.foldl min (min a x) := rfl
      _ ≤ min a x := foldl_min_le_init _ _
      _ ≤ x := min_le_right _ _
    · exact ih (min a z) x h

theorem foldl_min_cases :
    ∀ (l : List ℚ) (a : ℚ), l.foldl min a = a ∨ l.foldl min a ∈ l := by
  intro l
  induction l with
  | nil => intro a; left; rfl
  | cons z zs ih =>
    intro a
    rcases ih (min a z) with h | h
    · rcases min_cases a z with ⟨hm, _⟩ | ⟨hm, _⟩
      · left; rw [List.foldl_cons, h, hm]
      · right; rw [List.foldl_cons, h, hm]; simp
    · right
      rw [List.foldl_cons]
      exact List.mem_cons_of_mem _ h

theorem le_foldl_max_init : ∀ (l : List ℚ) (a : ℚ), a ≤ l.foldl max a := by
  intro l
  induction l with
  | nil => intro a; simp
  | cons x xs ih =>
    intro a
    calc a ≤ max a x := le_max_left _ _
    _ ≤ xs.foldl max (max a x) := ih (max a x)
    _ = (x :: xs).foldl max a := rfl

theorem mem_le_foldl_max :
    ∀ (l : List ℚ) (a x : ℚ), x ∈ l → x ≤ l.foldl max a := by
  intro l
  induction l with
  | nil => intro a x hx; simp at hx
  | cons z zs ih =>
    intro a x hx
    rcases List.mem_cons.mp hx with h | h
    · subst h
      calc x ≤ max a x := le_max_right _ _
      _ ≤ zs.foldl max (max a x) := le_foldl_max_init _ _
      _ = (x :: zs).foldl max a := rfl
    · exact ih (max a z) x h

theorem foldl_max_cases :
    ∀ (l : List ℚ) (a : ℚ), l.foldl max a = a ∨ l.foldl max a ∈ l := by
  intro l
  induction l with
  | nil => intro a; left; rfl
  | cons z zs ih =>
    intro a
    rcases ih (max a z) with h | h
    · rcases max_cases a z with ⟨hm, _⟩ | ⟨hm, _⟩
      · left; rw [List.foldl_cons, h, hm]
      · right; rw [List.foldl_cons, h, hm]; simp
    · right
      rw [List.foldl_cons]
      exact List.mem_cons_of_mem _ h

theorem boundsFold_fst :
    ∀ (nodes : List ForceNode) (acc : ℚ × ℚ × ℚ × ℚ),
      (nodes.foldl boundsStep acc).1 =
        (nodes.map (fun n => n.x - n.radius)).foldl min acc.1 := by
  intro nodes
  induction nodes with
  | nil => intro acc; rfl
  | cons n ns ih => intro acc; simp only [List.foldl_cons, List.map_cons, ih, boundsStep]

theorem boundsFold_max_x :
    ∀ (nodes : List ForceNode) (acc : ℚ × ℚ × ℚ × ℚ),
      (nodes.foldl boundsStep acc).2.1 =
        (nodes.map (fun n => n.x + n.radius)).foldl max acc.2.1 := by
  intro nodes
  induction nodes with
  | nil => intro acc; rfl
  | cons n ns ih => intro acc; simp only [List.foldl_cons, List.map_cons, ih, boundsStep]

theorem boundsFold_min_y :
    ∀ (nodes : List ForceNode) (acc : ℚ × ℚ × ℚ × ℚ),
      (nodes.foldl boundsStep acc).2.2.1 =
        (nodes.map (fun n => n.y - n.radius)).foldl min acc.2.2.1 := by
  intro nodes
  induction nodes with
  | nil => intro acc; rfl
  | cons n ns ih => intro acc; simp only [List.foldl_cons, List.map_cons, ih, boundsStep]

theorem boundsFold_max_y :
    ∀ (nodes : List ForceNode) (acc : ℚ × ℚ × ℚ × ℚ),
      (nodes.foldl boundsStep acc).2.2.2 =
        (nodes.map (fun n => n.y + n.radius)).foldl max acc.2.2.2 := by
  intro nodes
  induction nodes with
  | nil => intro acc; rfl
  | cons n ns ih => intro acc; simp only [List.foldl_cons, List.map_cons, ih, boundsStep]

/-- The minimum accumulated from the `f64::MAX` sentinel is attained by a
list element, provided the list is nonempty and all elements are at most the
sentinel. -/
theorem foldl_min_attained (l : List ℚ) (hne : l ≠ [])
    (hle : ∀ v ∈ l, v ≤ f64MAX) : l.foldl min f64MAX ∈ l := by
  rcases foldl_min_cases l f64MAX with h | h
  · obtain ⟨v, hv⟩ := List.exists_mem_of_ne_nil l hne
    have h1 : l.foldl min f64MAX ≤ v := foldl_min_le_mem l f64MAX v hv
    have h2 : v ≤ f64MAX := hle v hv
    have : l.foldl min f64MAX = v := le_antisymm h1 (by rw [h]; exact h2)
    rw [this]; exact hv
  · exact h

/-- The maximum accumulated from the `f64::MIN` sentinel is attained by a
list element, provided the list is nonempty and all elements are at least
the sentinel. -/
theorem foldl_max_attained (l : List ℚ) (hne : l ≠ [])
    (hge : ∀ v ∈ l, f64MIN ≤ v) : l.foldl max f64MIN ∈ l := by
  rcases foldl_max_cases l f64MIN with h | h
  · obtain ⟨v, hv⟩ := List.exists_mem_of_ne_nil l hne
    have h1 : v ≤ l.foldl max f64MIN := mem_le_foldl_max l f64MIN v hv
    have h2 : f64MIN ≤ v := hge v hv
    have : l.foldl max f64MIN = v := le_antisymm (by rw [h]; exact h2) h1
    rw [this]; exact hv
  · exact h

/-- C6.  Bounds: for a layout with zero nodes the bounds are exactly
`(0,0,0,0)`; with at least one node (whose extents are representable, i.e.
within the `f64::MAX` / `f64::MIN` sentinels the source initializes the
fold with), each of the four bounds equals the corresponding min/max of
position ± radius over all nodes, expanded outward by the fixed padding 20 —
in particular every node's position ± radius lies strictly inside the
bounds, 20 away from each edge. -/
theorem bounds_characterization (nodes : List ForceNode)
    (hrange : ∀ n ∈ nodes,
      n.x - n.radius ≤ f64MAX ∧ f64MIN ≤ n.x + n.radius ∧
      n.y - n.radius ≤ f64MAX ∧ f64MIN ≤ n.y + n.radius) :
    (nodes = [] → compute_bounds nodes = (0, 0, 0, 0)) ∧
    (∀ n ∈ nodes,
      (compute_bounds nodes).1 ≤ n.x - n.radius - 20 ∧
      n.x + n.radius + 20 ≤ (compute_bounds nodes).2.1 ∧
      (compute_bounds nodes).2.2.1 ≤ n.y - n.radius - 20 ∧
      n.y + n.radius + 20 ≤ (compute_bounds nodes).2.2.2) ∧
    (nodes ≠ [] →
      (∃ n ∈ nodes, (compute_bounds nodes).1 = n.x - n.radius - 20) ∧
      (∃ n ∈ nodes, (compute_bounds nodes).2.1 = n.x + n.radius + 20) ∧
      (∃ n ∈ nodes, (compute_bounds nodes).2.2.1 = n.y - n.radius - 20) ∧
      (∃ n ∈ nodes, (compute_bounds nodes).2.2.2 = n.y + n.radius + 20)) := by
  refine ⟨fun h => by rw [h]; rfl, ?_, ?_⟩
  · intro n hn
    cases nodes with
    | nil => simp at hn
    | cons m ms =>
      simp only [compute_bounds]
      refine ⟨?_, ?_, ?_, ?_⟩
      · have := foldl_min_le_mem ((m :: ms).map (fun n => n.x - n.radius)) f64MAX
          (n.x - n.radius) (List.mem_map_of_mem _ hn)
        rw [boundsFold_fst]
        linarith
      · have := mem_le_foldl_max ((m :: ms).map (fun n => n.x + n.radius)) f64MIN
          (n.x + n.radius) (List.mem_map_of_mem _ hn)
        rw [boundsFold_max_x]
        linarith
      · have := foldl_min_le_mem ((m :: ms).map (fun n => n.y - n.radius)) f64MAX
          (n.y - n.radius) (List.mem_map_of_mem _ hn)
        rw [boundsFold_min_y]
        linarith
      · have := mem_le_foldl_max ((m :: ms).map (fun n => n.y + n.radius)) f64MIN
          (n.y + n.radius) (List.mem_map_of_mem _ hn)
        rw [boundsFold_max_y]
        linarith
  · intro hne
    cases nodes with
    | nil => exact absurd rfl hne
    | cons m ms =>
      simp only [compute_bounds]
      refine ⟨?_, ?_, ?_, ?_⟩
      · have hmem := foldl_min_attained ((m :: ms).map (fun n => n.x - n.radius))
          (by simp) (by
            intro v hv
            obtain ⟨n, hn, rfl⟩ := List.mem_map.mp hv
            exact (hrange n hn).1)
        obtain ⟨n, hn, hv⟩ := List.mem_map.mp hmem
        exact ⟨n, hn, by rw [boundsFold_fst, ← hv]⟩
      · have hmem := foldl_max_attained ((m :: ms).map (fun n => n.x + n.radius))
          (by simp) (by
            intro v hv
            obtain ⟨n, hn, rfl⟩ := List.mem_map.mp hv
            exact (hrange n hn).2.1)
        obtain ⟨n, hn, hv⟩ := List.mem_map.mp hmem
        exact ⟨n, hn, by rw [boundsFold_max_x, ← hv]⟩
      · have hmem := foldl_min_attained ((m :: ms).map (fun n => n.y - n.radius))
          (by simp) (by
            intro v hv
            obtain ⟨n, hn, rfl⟩ := List.mem_map.mp hv
            exact (hrange n hn).2.2.1)
        obtain ⟨n, hn, hv⟩ := List.mem_map.mp hmem
        exact ⟨n, hn, by rw [boundsFold_min_y, ← hv]⟩
      · have hmem := foldl_max_attained ((m :: ms).map (fun n => n.y + n.radius))
          (by simp) (by
            intro v hv
            obtain ⟨n, hn, rfl⟩ := List.mem_map.mp hv
            exact (hrange n hn).2.2.2)
        obtain ⟨n, hn, hv⟩ := List.mem_map.mp hmem
        exact ⟨n, hn, by rw [boundsFold_max_y, ← hv]⟩

/-- Closed witness for `bounds_characterization` on a one-node list. -/
theorem bounds_characterization_witness :
    (∀ n ∈ [node0],
      n.x - n.radius ≤ f64MAX ∧ f64MIN ≤ n.x + n.radius ∧
      n.y - n.radius ≤ f64MAX ∧ f64MIN ≤ n.y + n.radius) ∧
    (([node0] : List ForceNode) = [] → compute_bounds [node0] = (0, 0, 0, 0)) ∧
    (∀ n ∈ [node0],
      (compute_bounds [node0]).1 ≤ n.x - n.radius - 20 ∧
      n.x + n.radius + 20 ≤ (compute_bounds [node0]).2.1 ∧
      (compute_bounds [node0]).2.2.1 ≤ n.y - n.radius - 20 ∧
      n.y + n.radius + 20 ≤ (compute_bounds [node0]).2.2.2) ∧
    (([node0] : List ForceNode) ≠ [] →
      (∃ n ∈ [node0], (compute_bounds [node0]).1 = n.x - n.radius - 20) ∧
      (∃ n ∈ [node0], (compute_bounds [node0]).2.1 = n.x + n.radius + 20) ∧
      (∃ n ∈ [node0], (compute_bounds [node0]).2.2.1 = n.y - n.radius - 20) ∧
      (∃ n ∈ [node0], (compute_bounds [node0]).2.2.2 = n.y + n.radius + 20)) := by
  have h : ∀ n ∈ [node0],
      n.x - n.radius ≤ f64MAX ∧ f64MIN ≤ n.x + n.radius ∧
      n.y - n.radius ≤ f64MAX ∧ f64MIN ≤ n.y + n.radius := by
    intro n hn
    simp only [List.mem_singleton] at hn
    subst hn
    norm_num [node0, f64MAX, f64MIN]
  exact ⟨h, bounds_characterization [node0] h⟩

-- ============================================================================
-- C5: link spring stiffness
-- ============================================================================

/-- Link-degree of a node index: the number of link index pairs in which it
occurs as source or target. -/
def degreeCount (links : List (ℕ × ℕ)) (n : ℕ) : ℕ :=
  (links.filter (fun p => p.1 == n || p.2 == n)).length

/-- Modelled from the spec: the effective default stiffness of the link
force is decided inside the `fjadra` crate, which is not under `src/`.  The
source configures the force as `Link::new(link_indices).iterations(3)` with
no `.strength(...)` call, and its comments state that the defaults are
"based on link topology" (force_graph.rs lines 393-398) and that the stored
strength constant is "Stored for ForceLink output (actual spring uses
Fjädra defaults)" (line 63).  Fjädra is a port of d3-force, whose documented
default per-link strength is `1 / min(degree(source), degree(target))`. -/
def defaultLinkStrength (links : List (ℕ × ℕ)) (k : ℕ) : ℚ :=
  match links.get? k with
  | some st => 1 / ((min (degreeCount links st.1) (degreeCount links st.2) : ℕ) : ℚ)
  | none => 0

/-- The stiffness the simulation actually applies to link `k`: the
configured override if one was set, otherwise the library default. -/
def effectiveLinkStrength (cfg : SimConfig) (k : ℕ) : ℚ :=
  match cfg.link.strength with
  | some f => f k
  | none => defaultLinkStrength cfg.link.links k

/-- The property asserted by the claim, as stated: the link force iterates
3 passes per tick and pulls with stiffness equal to the corresponding
output link's `strength` field. -/
def linkStiffnessMatchesStoredStrength (T : TrigModel) (bike : Bike)
    (deliveries : List Delivery) (issues : List Issue)
    (fixed_node : Option (String × ℚ × ℚ)) : Prop :=
  (simConfigOf T bike deliveries issues fixed_node).link.iterations = 3 ∧
  ∀ k, k < (linksOf T bike deliveries issues).length →
    effectiveLinkStrength (simConfigOf T bike deliveries issues fixed_node) k =
      (((linksOf T bike deliveries issues).get? k).map (fun l => l.strength)).getD 0

/-- C5 counterexample: for one bike with one delivery, the single
Center→Primary link has stored strength `0.7`, but the simulation is
configured with no strength override, so the spring uses the library
default (degree-based, here `1`), not `0.7`. -/
theorem link_stiffness_claim_false :
    ¬ linkStiffnessMatchesStoredStrength T0 bike1 [d1] [] none := by
  intro h
  have h0 := h.2 0 (by decide)
  have elinks : linkIndicesOf T0 bike1 [d1] [] = [(0, 1)] := by decide
  have edeg0 : degreeCount [(0, 1)] 0 = 1 := by decide
  have edeg1 : degreeCount [(0, 1)] 1 = 1 := by decide
  have e1 : effectiveLinkStrength (simConfigOf T0 bike1 [d1] [] none) 0 = 1 := by
    show defaultLinkStrength (linkIndicesOf T0 bike1 [d1] []) 0 = 1
    rw [elinks]
    simp [defaultLinkStrength, edeg0, edeg1]
  have e2 : (((linksOf T0 bike1 [d1] []).get? 0).map (fun l => l.strength)).getD 0 =
      7/10 := by
    rw [linksOf_eq]
    simp [LINK_STRENGTH]
  rw [e1, e2] at h0
  exact absurd h0 (by norm_num)

/-- C5 as amended: the link force is configured with exactly 3 iterations
per tick but with no per-link strength or distance override — the spring
uses the library's topology-based default stiffness, and the per-link
`strength` field (0.7 / 0.7·0.8 / 0.7·0.5) is only stored on the output
links. -/
theorem link_force_default_config (T : TrigModel) (bike : Bike)
    (deliveries : List Delivery) (issues : List Issue)
    (fixed_node : Option (String × ℚ × ℚ)) :
    (simConfigOf T bike deliveries issues fixed_node).link.iterations = 3 ∧
    (simConfigOf T bike deliveries issues fixed_node).link.strength = none ∧
    (simConfigOf T bike deliveries issues fixed_node).link.distance = none ∧
    ∀ k, effectiveLinkStrength (simConfigOf T bike deliveries issues fixed_node) k =
      defaultLinkStrength (linkIndicesOf T bike deliveries issues) k :=
  ⟨rfl, rfl, rfl, fun _ => rfl⟩

-- ============================================================================
-- C8: link-endpoint resolution
-- ============================================================================

/-- Every link endpoint of a layout names some node of the layout. -/
def linkEndpointsResolve (g : ForceGraphData) : Prop :=
  ∀ l ∈ g.links,
    (∃ n ∈ g.nodes, n.id = l.source) ∧ (∃ n ∈ g.nodes, n.id = l.target)

instance linkEndpointsResolveDecidable (g : ForceGraphData) :
    Decidable (linkEndpointsResolve g) :=
  inferInstanceAs (Decidable (∀ l ∈ g.links,
    (∃ n ∈ g.nodes, n.id = l.source) ∧ (∃ n ∈ g.nodes, n.id = l.target)))

/-- C8 counterexample: with no deliveries and a single issue whose
`delivery_id` is "ghost", the layout still emits a link with source
"ghost", which is the id of no returned node. -/
theorem link_endpoints_claim_false :
    ¬ linkEndpointsResolve (layoutOf idOracle T0 bike1 [] [i1] none) := by
  decide

/-- C8 as amended: when every issue's `delivery_id` (when present) refers
to the bike or to one of the supplied deliveries — the referential
integrity the spec guarantees upstream — every link's source and target
equal the id of some node in the returned node list. -/
theorem link_endpoints_resolve (S : SimOracle) (T : TrigModel) (bike : Bike)
    (deliveries : List Delivery) (issues : List Issue)
    (fixed_node : Option (String × ℚ × ℚ))
    (h : ∀ iss ∈ issues, ∀ dd, iss.delivery_id = some dd →
      dd = bike.id ∨ dd ∈ deliveries.map (fun x => x.id)) :
    linkEndpointsResolve (layoutOf S T bike deliveries issues fixed_node) := by
  intro l hl
  have hids : (layoutOf S T bike deliveries issues fixed_node).nodes.map
      (fun n => n.id) =
      bike.id :: (deliveries.map (fun x => x.id) ++
        ((issues.filter (fun x => x.delivery_id.isSome)).map (fun x => x.id) ++
         (issues.filter (fun x => x.delivery_id.isNone)).map (fun x => x.id))) := by
    show (nodesOf S T bike deliveries issues fixed_node).map (fun n => n.id) = _
    unfold nodesOf
    rw [extractNodes_map_id, nodeInfosOf_map_id]
  have hof : ∀ s : String,
      s ∈ (layoutOf S T bike deliveries issues fixed_node).nodes.map (fun n => n.id) →
      ∃ n ∈ (layoutOf S T bike deliveries issues fixed_node).nodes, n.id = s := by
    intro s hs
    obtain ⟨n, hn, hns⟩ := List.mem_map.mp hs
    exact ⟨n, hn, hns⟩
  have hbike : ∃ n ∈ (layoutOf S T bike deliveries issues fixed_node).nodes,
      n.id = bike.id := hof bike.id (by rw [hids]; simp)
  have hlinks : l ∈ linksOf T bike deliveries issues := hl
  rw [linksOf_eq] at hlinks
  rcases List.mem_append.mp hlinks with hD | hLS
  · obtain ⟨dv, hdv, rfl⟩ := List.mem_map.mp hD
    refine ⟨hbike, hof dv.id ?_⟩
    rw [hids]
    simp only [List.mem_cons, List.mem_append, List.mem_map]
    exact Or.inr (Or.inl ⟨dv, hdv, rfl⟩)
  · rcases List.mem_append.mp hLS with hL | hS
    · obtain ⟨iss, hiss, rfl⟩ := List.mem_map.mp hL
      have hissIn : iss ∈ issues := (List.mem_filter.mp hiss).1
      have hsome : iss.delivery_id.isSome = true := (List.mem_filter.mp hiss).2
      obtain ⟨dd, hdd⟩ := Option.isSome_iff_exists.mp hsome
      constructor
      · refine hof _ ?_
        rw [hids]
        simp only [hdd, Option.getD_some]
        rcases h iss hissIn dd hdd with hb | hd
        · simp [hb]
        · simp only [List.mem_cons, List.mem_append]
          exact Or.inr (Or.inl hd)
      · refine hof iss.id ?_
        rw [hids]
        simp only [List.mem_cons, List.mem_append, List.mem_map]
        exact Or.inr (Or.inr (Or.inl ⟨iss, hiss, rfl⟩))
    · obtain ⟨iss, hiss, rfl⟩ := List.mem_map.mp hS
      refine ⟨hbike, hof iss.id ?_⟩
      rw [hids]
      simp only [List.mem_cons, List.mem_append, List.mem_map]
      exact Or.inr (Or.inr (Or.inr ⟨iss, hiss, rfl⟩))

/-- Closed witness for `link_endpoints_resolve` on a well-linked input. -/
theorem link_endpoints_resolve_witness :
    linkEndpointsResolve (layoutOf idOracle T0 bike1 [d1] [i2, i3] none) :=
  link_endpoints_resolve idOracle T0 bike1 [d1] [i2, i3] none (by decide)

-- ============================================================================
-- C9: dangling-reference recovery
-- ============================================================================

theorem addLinkedIssues_grows (T : TrigModel) (allIssues : List Issue) :
    ∀ (l : List Issue) (infos : List NodeInfo),
      ∃ tail, (addLinkedIssues T allIssues l infos).1 = infos ++ tail := by
  intro l
  induction l with
  | nil => intro infos; exact ⟨[], by simp [addLinkedIssues]⟩
  | cons issue rest ih =>
    intro infos
    cases hdid : issue.delivery_id with
    | none =>
      simp only [addLinkedIssues, hdid]
      exact ih infos
    | some did =>
      simp only [addLinkedIssues, hdid]
      obtain ⟨tail, h1⟩ := ih (infos ++ [linkedIssueInfo T allIssues issue
        ((findNodeInfo infos did 0).getD (1, DELIVERY_DISTANCE, 0))])
      exact ⟨linkedIssueInfo T allIssues issue
        ((findNodeInfo infos did 0).getD (1, DELIVERY_DISTANCE, 0)) :: tail,
        by simp [h1]⟩

/-- A linked issue whose `delivery_id` matches no node id present when it is
processed (and none of the issue ids that could join later) is placed with
the fallback anchor `(index 1, DELIVERY_DISTANCE, 0)`: its node ends up in
the output with initial position `(120 + 60·cos(offset), 0 + 60·sin(offset))`. -/
theorem addLinkedIssues_dangling (T : TrigModel) (allIssues : List Issue)
    (d : String) :
    ∀ (l : List Issue) (infos : List NodeInfo) (issue : Issue),
      issue ∈ l → issue.delivery_id = some d →
      (∀ n ∈ infos, n.id ≠ d) → (∀ x ∈ l, x.id ≠ d) →
      ∃ info ∈ (addLinkedIssues T allIssues l infos).1,
        info.id = issue.id ∧
        info.initial_x = DELIVERY_DISTANCE +
          ISSUE_DISTANCE * T.cosq (issueAngleOffset allIssues issue.id) ∧
        info.initial_y = 0 +
          ISSUE_DISTANCE * T.sinq (issueAngleOffset allIssues issue.id) := by
  intro l
  induction l with
  | nil => intro infos issue hmem; simp at hmem
  | cons x rest ih =>
    intro infos issue hmem hdid hinfos hl
    rcases List.mem_cons.mp hmem with rfl | hmem'
    · simp only [addLinkedIssues, hdid]
      have hfind : findNodeInfo infos d 0 = none :=
        findNodeInfo_eq_none infos d 0 hinfos
      rw [hfind]
      obtain ⟨tail, h1⟩ := addLinkedIssues_grows T allIssues rest
        (infos ++ [linkedIssueInfo T allIssues issue
          ((none : Option (ℕ × ℚ × ℚ)).getD (1, DELIVERY_DISTANCE, 0))])
      refine ⟨linkedIssueInfo T allIssues issue (1, DELIVERY_DISTANCE, 0), ?_, ?_, ?_, ?_⟩
      · rw [h1]; simp [linkedIssueInfo]
      · rfl
      · rfl
      · rfl
    · cases hxdid : x.delivery_id with
      | none =>
        simp only [addLinkedIssues, hxdid]
        exact ih infos issue hmem' hdid hinfos (fun z hz => hl z (by simp [hz]))
      | some dx =>
        simp only [addLinkedIssues, hxdid]
        refine ih _ issue hmem' hdid ?_ (fun z hz => hl z (by simp [hz]))
        intro n hn
        rcases List.mem_append.mp hn with h | h
        · exact hinfos n h
        · have : n = linkedIssueInfo T allIssues x
              ((findNodeInfo infos dx 0).getD (1, DELIVERY_DISTANCE, 0)) := by
            simpa using h
          rw [this]
          show x.id ≠ d
          exact hl x (by simp)

/-- C9.  Dangling-reference recovery: when some issue's `delivery_id`
matches no node of the built graph, the computation still returns a layout
successfully (the pipeline is total and unconditionally `Ok`), and that
issue's node is placed at the fallback initial position anchored at the
first delivery-ring slot `(120, 0)` plus its angular offset. -/
theorem dangling_reference_recovery (S : SimOracle) (T : TrigModel)
    (bike : Bike) (deliveries : List Delivery) (issues : List Issue)
    (fixed_node : Option (String × ℚ × ℚ)) (issue : Issue) (d : String)
    (hmem : issue ∈ issues) (hdid : issue.delivery_id = some d)
    (hnot : d ∉ bike.id ::
      (deliveries.map (fun x => x.id) ++ issues.map (fun x => x.id))) :
    compute_force_layout S T bike deliveries issues fixed_node =
      Except.ok (layoutOf S T bike deliveries issues fixed_node) ∧
    ∃ info ∈ nodeInfosOf T bike deliveries issues,
      info.id = issue.id ∧
      info.initial_x = DELIVERY_DISTANCE +
        ISSUE_DISTANCE * T.cosq (issueAngleOffset issues issue.id) ∧
      info.initial_y = 0 +
        ISSUE_DISTANCE * T.sinq (issueAngleOffset issues issue.id) := by
  refine ⟨rfl, ?_⟩
  have hbike : bike.id ≠ d := by
    intro h
    exact hnot (List.mem_cons.mpr (Or.inl h.symm))
  have hdel : ∀ x ∈ deliveries, x.id ≠ d := by
    intro x hx hxd
    apply hnot
    simp only [List.mem_cons, List.mem_append, List.mem_map]
    exact Or.inr (Or.inl ⟨x, hx, hxd⟩)
  have hiss : ∀ x ∈ issues, x.id ≠ d := by
    intro x hx hxd
    apply hnot
    simp only [List.mem_cons, List.mem_append, List.mem_map]
    exact Or.inr (Or.inr ⟨x, hx, hxd⟩)
  have hmemL : issue ∈ issues.filter (fun x => x.delivery_id.isSome) :=
    List.mem_filter.mpr ⟨hmem, by rw [hdid]; rfl⟩
  have hlL : ∀ x ∈ issues.filter (fun x => x.delivery_id.isSome), x.id ≠ d :=
    fun x hx => hiss x (List.mem_filter.mp hx).1
  obtain ⟨tD, hD1, hD2⟩ :=
    addDeliveries_infos T bike deliveries.length 0 deliveries [delivererInfo bike]
  have hinfos1 : ∀ n ∈ (addDeliveries T bike deliveries.length 0 deliveries
      [delivererInfo bike]).1, n.id ≠ d := by
    intro n hn
    rw [hD1] at hn
    rcases List.mem_append.mp hn with h | h
    · have : n = delivererInfo bike := by simpa using h
      rw [this]
      exact hbike
    · have hnid : n.id ∈ tD.map (fun m => m.id) := List.mem_map_of_mem _ h
      rw [hD2] at hnid
      obtain ⟨x, hx, hxid⟩ := List.mem_map.mp hnid
      rw [← hxid]
      exact hdel x hx
  obtain ⟨info, hinfoMem, hid, hx, hy⟩ :=
    addLinkedIssues_dangling T issues d
      (issues.filter (fun x => x.delivery_id.isSome))
      (addDeliveries T bike deliveries.length 0 deliveries [delivererInfo bike]).1
      issue hmemL hdid hinfos1 hlL
  obtain ⟨tS, hS1, _⟩ :=
    addStandaloneIssues_infos T bike
      (issues.filter (fun x => x.delivery_id.isNone)).length 0
      (issues.filter (fun x => x.delivery_id.isNone))
      (addLinkedIssues T issues (issues.filter (fun x => x.delivery_id.isSome))
        (addDeliveries T bike deliveries.length 0 deliveries [delivererInfo bike]).1).1
  refine ⟨info, ?_, hid, hx, hy⟩
  rw [nodeInfosOf_eq, hS1]
  exact List.mem_append_left _ hinfoMem

/-- Closed witness for `dangling_reference_recovery`: with one delivery and
the dangling issue `i1` (delivery_id "ghost"), the layout is returned and
`i1`'s node sits at `(120 + 60·cos(0), 0 + 60·sin(0))`. -/
theorem dangling_reference_recovery_witness :
    compute_force_layout idOracle T0 bike1 [d1] [i1, i2, i3] none =
      Except.ok (layoutOf idOracle T0 bike1 [d1] [i1, i2, i3] none) ∧
    ∃ info ∈ nodeInfosOf T0 bike1 [d1] [i1, i2, i3],
      info.id = i1.id ∧
      info.initial_x = DELIVERY_DISTANCE +
        ISSUE_DISTANCE * T0.cosq (issueAngleOffset [i1, i2, i3] i1.id) ∧
      info.initial_y = 0 +
        ISSUE_DISTANCE * T0.sinq (issueAngleOffset [i1, i2, i3] i1.id) :=
  dangling_reference_recovery idOracle T0 bike1 [d1] [i1, i2, i3] none i1 "ghost"
    (by decide) (by decide) (by decide)

end ForceGraph
